import Mathlib

/-!
# Verification of `tapioca`: a type-indexed value registry and injector

Shallow embedding of the two source files of the repository:

* `src/typemap.rs` — `TypeMap`, a map from `TypeId` to a type-erased boxed
  value (`BTreeMap<TypeId, Box<dyn Any>>`).
* `src/lib.rs` — `Injector`, a `TypeMap` plus an optional parent injector,
  with typed accessors and a per-arity generic `call` operation.

Modelling choices:

* Rust's `TypeId` is modelled by a type `κ` of *type codes* with decidable
  equality, together with a denotation function `denote : κ → Type` giving
  the Lean type each code stands for.  Two values of the same static type
  share a code; distinct types have distinct codes — exactly the contract
  of `TypeId`.
* A `Box<dyn Any>` (a type-erased value carrying its `TypeId`) is modelled
  by a dependent pair `Sigma denote`: the code together with a value of the
  denoted type.  `downcast_ref` checks the stored code against the requested
  one and returns the payload only on a match, as `Any::downcast_ref` does.
* The `BTreeMap` is modelled by an association list of such pairs with at
  most one entry per code.  The source never exposes iteration order, so
  the ordered structure of the B-tree is not observable through the API
  (`insert`/`get`/`get_mut`/`contains`/`remove`/`clear`) and an association
  list is an observationally faithful model of the map.
* `unwrap()` panics in `Injector::call` are modelled by `Option`: a result
  of `none` is the abort (panic), `some r` is a normal return of `r`.
  Rust's `&mut Injector` parent link is modelled by value; mutation is
  explicit state passing.
-/

universe u

section TypeMapModel

variable {κ : Type} [DecidableEq κ] {denote : κ → Type}

/-- `src/typemap.rs` line 8: `pub struct TypeMap(BTreeMap<TypeId, Box<dyn Any>>)`.
The map is a list of type-erased entries (code paired with payload), with at
most one entry per code. -/
structure TypeMap (κ : Type) (denote : κ → Type) where
  entries : List (Sigma denote)

/-- `Any::downcast_ref::<T>` on a boxed value: succeeds exactly when the
stored type code equals the requested one, returning the payload at the
requested type. -/
def downcastRef (t : κ) (e : Sigma denote) : Option (denote t) :=
  if h : e.1 = t then some (h ▸ e.2) else none

/-- `BTreeMap::get(&TypeId::of::<T>())`: find the entry stored under code `t`. -/
def findEntry (t : κ) : List (Sigma denote) → Option (Sigma denote)
  | [] => none
  | e :: es => if e.1 = t then some e else findEntry t es

/-- `BTreeMap::insert`/`BTreeMap::remove` both displace the entry stored
under code `t`; this is the list with every entry keyed `t` removed. -/
def eraseEntry (t : κ) : List (Sigma denote) → List (Sigma denote)
  | [] => []
  | e :: es => if e.1 = t then eraseEntry t es else e :: eraseEntry t es

/-- `TypeMap::new` (and `Default`): the empty map. -/
def TypeMap.new : TypeMap κ denote :=
  ⟨[]⟩

/-- `TypeMap::insert<T>(val)`: `self.0.insert(TypeId::of::<T>(), Box::new(val))` —
store `v` under code `t`, displacing any previous entry for `t`. -/
def TypeMap.insert (m : TypeMap κ denote) (t : κ) (v : denote t) : TypeMap κ denote :=
  ⟨⟨t, v⟩ :: eraseEntry t m.entries⟩

/-- `TypeMap::get<T>`: `self.0.get(&TypeId::of::<T>()).and_then(|b| b.downcast_ref())`. -/
def TypeMap.get (m : TypeMap κ denote) (t : κ) : Option (denote t) :=
  (findEntry t m.entries).bind (downcastRef t)

/-- `TypeMap::get_mut<T>`: same lookup as `get`, through
`get_mut`/`downcast_mut`; in a pure model the located value is identical. -/
def TypeMap.get_mut (m : TypeMap κ denote) (t : κ) : Option (denote t) :=
  (findEntry t m.entries).bind (downcastRef t)

/-- `TypeMap::contains<T>`: `self.0.get(&TypeId::of::<T>()).is_some()`. -/
def TypeMap.contains (m : TypeMap κ denote) (t : κ) : Bool :=
  (findEntry t m.entries).isSome

/-- `TypeMap::remove<T>`: `self.0.remove(&id).and_then(|b| b.downcast().ok().map(|b| *b))`
— returns the displaced value (downcast to `T`) and the map without it. -/
def TypeMap.remove (m : TypeMap κ denote) (t : κ) :
    Option (denote t) × TypeMap κ denote :=
  ((findEntry t m.entries).bind (downcastRef t), ⟨eraseEntry t m.entries⟩)

/-- `TypeMap::clear`: `self.0.clear()`. -/
def TypeMap.clear (_ : TypeMap κ denote) : TypeMap κ denote :=
  ⟨[]⟩

end TypeMapModel

section InjectorModel

variable {κ : Type} [DecidableEq κ] {denote : κ → Type} {R : Type}

/-- `src/lib.rs` lines 8–12: `struct Injector<'a> { values: TypeMap,
parent: Option<&'a mut Injector<'a>> }`.  The borrowed parent is modelled
by value. -/
inductive Injector (κ : Type) (denote : κ → Type) : Type where
  | mk (values : TypeMap κ denote) (parent : Option (Injector κ denote))

/-- Projection for the `values` field. -/
def Injector.values : Injector κ denote → TypeMap κ denote
  | .mk v _ => v

/-- Projection for the `parent` field. -/
def Injector.parent : Injector κ denote → Option (Injector κ denote)
  | .mk _ p => p

/-- `Injector::new` / `Default`: empty local map, no parent. -/
def Injector.new : Injector κ denote :=
  .mk TypeMap.new none

/-- `Injector::with_parent(self, parent)`: same values, parent attached. -/
def Injector.with_parent (i : Injector κ denote) (p : Injector κ denote) :
    Injector κ denote :=
  .mk i.values (some p)

/-- `Injector::add_value<T>(v)`: `self.values.insert(v)` — local map only. -/
def Injector.add_value (i : Injector κ denote) (t : κ) (v : denote t) :
    Injector κ denote :=
  .mk (i.values.insert t v) i.parent

/-- `Injector::get<T>` (`src/lib.rs` lines 30–38): local map first, else
recurse into the parent, else `None`. -/
def Injector.get : Injector κ denote → (t : κ) → Option (denote t)
  | .mk values parent, t =>
    match values.get t with
    | some v => some v
    | none =>
      match parent with
      | some p => p.get t
      | none => none

/-- `Injector::get_mut<T>` (`src/lib.rs` lines 40–48): same traversal as
`get`, through the `get_mut` accessors. -/
def Injector.get_mut : Injector κ denote → (t : κ) → Option (denote t)
  | .mk values parent, t =>
    match values.get_mut t with
    | some v => some v
    | none =>
      match parent with
      | some p => p.get_mut t
      | none => none

/-!
## The `call` dispatch (`src/lib.rs` lines 50–120)

`Injector::call(f)` delegates to `CallInjector::call(&f, self)`.  The trait
is implemented once per arity: the nullary impl (lines 68–75) invokes `f`
directly, and the `factory_tuple!` macro (lines 87–104, instantiated for
arities 1–10 at lines 110–119) expands to
`(self)(inj.get::<A>().unwrap(), inj.get::<B>().unwrap(), ...)`.

Each `unwrap()` panics when the chain lacks the parameter type; the panic is
modelled as `none`, so each per-arity `call` is the `Option.bind`-chain of
the lookups, with `some (f ...)` when every lookup succeeds.  `callN i
[t1, ..., tn] f` is the uniform spelling of that expansion, and `call1` …
`call10` below are the ten macro instantiations written out. -/

/-- The type `&T1 → ... → &Tn → R` of an n-ary callable, indexed by the
list of parameter type codes (the macro's `Fn(&A, &B, ...) -> Res`). -/
def hfun (denote : κ → Type) (R : Type) : List κ → Type
  | [] => R
  | t :: ts => denote t → hfun denote R ts

/-- The body the `factory_tuple!` macro generates, uniformly in the list of
parameter codes: look each code up in the injector (`inj.get::<T>()`),
aborting (`none`) where Rust's `unwrap()` would panic, and apply `f` to the
resolved references. -/
def Injector.callN (i : Injector κ denote) :
    (ts : List κ) → hfun denote R ts → Option R
  | [], f => some f
  | t :: ts, f => (i.get t).bind fun v => i.callN ts (f v)

/-- Arity 0 (`src/lib.rs` lines 68–75): `fn call(&self, _: &Injector) -> Res
{ (self)() }` — the injector is ignored and `f` is invoked directly; no
lookup, hence no panic. -/
def Injector.call0 (i : Injector κ denote) (f : Unit → R) : Option R :=
  i.callN [] (f ())

/-- Arity 1: `(self)(inj.get::<A>().unwrap())`. -/
def Injector.call1 (i : Injector κ denote) (t1 : κ)
    (f : denote t1 → R) : Option R :=
  i.callN [t1] f

/-- Arity 2: `(self)(inj.get::<A>().unwrap(), inj.get::<B>().unwrap())`. -/
def Injector.call2 (i : Injector κ denote) (t1 t2 : κ)
    (f : denote t1 → denote t2 → R) : Option R :=
  i.callN [t1, t2] f

/-- Arity 3 instantiation of `factory_tuple!`. -/
def Injector.call3 (i : Injector κ denote) (t1 t2 t3 : κ)
    (f : denote t1 → denote t2 → denote t3 → R) : Option R :=
  i.callN [t1, t2, t3] f

/-- Arity 4 instantiation of `factory_tuple!`. -/
def Injector.call4 (i : Injector κ denote) (t1 t2 t3 t4 : κ)
    (f : denote t1 → denote t2 → denote t3 → denote t4 → R) : Option R :=
  i.callN [t1, t2, t3, t4] f

/-- Arity 5 instantiation of `factory_tuple!`. -/
def Injector.call5 (i : Injector κ denote) (t1 t2 t3 t4 t5 : κ)
    (f : denote t1 → denote t2 → denote t3 → denote t4 → denote t5 → R) :
    Option R :=
  i.callN [t1, t2, t3, t4, t5] f

/-- Arity 6 instantiation of `factory_tuple!`. -/
def Injector.call6 (i : Injector κ denote) (t1 t2 t3 t4 t5 t6 : κ)
    (f : denote t1 → denote t2 → denote t3 → denote t4 → denote t5 →
      denote t6 → R) : Option R :=
  i.callN [t1, t2, t3, t4, t5, t6] f

/-- Arity 7 instantiation of `factory_tuple!`. -/
def Injector.call7 (i : Injector κ denote) (t1 t2 t3 t4 t5 t6 t7 : κ)
    (f : denote t1 → denote t2 → denote t3 → denote t4 → denote t5 →
      denote t6 → denote t7 → R) : Option R :=
  i.callN [t1, t2, t3, t4, t5, t6, t7] f

/-- Arity 8 instantiation of `factory_tuple!`. -/
def Injector.call8 (i : Injector κ denote) (t1 t2 t3 t4 t5 t6 t7 t8 : κ)
    (f : denote t1 → denote t2 → denote t3 → denote t4 → denote t5 →
      denote t6 → denote t7 → denote t8 → R) : Option R :=
  i.callN [t1, t2, t3, t4, t5, t6, t7, t8] f

/-- Arity 9 instantiation of `factory_tuple!`. -/
def Injector.call9 (i : Injector κ denote) (t1 t2 t3 t4 t5 t6 t7 t8 t9 : κ)
    (f : denote t1 → denote t2 → denote t3 → denote t4 → denote t5 →
      denote t6 → denote t7 → denote t8 → denote t9 → R) : Option R :=
  i.callN [t1, t2, t3, t4, t5, t6, t7, t8, t9] f

/-- Arity 10 instantiation of `factory_tuple!`. -/
def Injector.call10 (i : Injector κ denote) (t1 t2 t3 t4 t5 t6 t7 t8 t9 t10 : κ)
    (f : denote t1 → denote t2 → denote t3 → denote t4 → denote t5 →
      denote t6 → denote t7 → denote t8 → denote t9 → denote t10 → R) :
    Option R :=
  i.callN [t1, t2, t3, t4, t5, t6, t7, t8, t9, t10] f

end InjectorModel

section ConcreteTypes

/-- A concrete universe of type codes for the types the spec's examples use
(standing for Rust's `u8`, `u16`, `u32`, and a type never registered). -/
inductive Ty : Type where
  | u8
  | u16
  | u32
  | u64
  deriving DecidableEq

/-- Denotation of the concrete codes.  The unsigned types denote `Nat`;
arithmetic in the example callables wraps with an explicit `% 2 ^ 32` where
the source's `u32` addition would. -/
@[reducible] def Ty.denote : Ty → Type
  | .u8 => Nat
  | .u16 => Nat
  | .u32 => Nat
  | .u64 => Nat

/-- The injector of the spec's example: `u32 = 5`, `u8 = 80` registered. -/
def exInj2 : Injector Ty Ty.denote :=
  (Injector.new.add_value Ty.u32 5).add_value Ty.u8 80

/-- The example injector after additionally registering `u16 = 100`. -/
def exInj3 : Injector Ty Ty.denote :=
  exInj2.add_value Ty.u16 100

/-- The example callable `fn plus(a: &u32, b: &u8) -> u32 { a + (*b as u32) }`,
with `u32` addition wrapping at `2 ^ 32`. -/
def plus (a : Ty.denote Ty.u32) (b : Ty.denote Ty.u8) : Ty.denote Ty.u32 :=
  (a + b) % 2 ^ 32

/-- The example callable summing three registered values as `u32`. -/
def plus3 (a : Ty.denote Ty.u32) (b : Ty.denote Ty.u8)
    (c : Ty.denote Ty.u16) : Ty.denote Ty.u32 :=
  (a + b + c) % 2 ^ 32

end ConcreteTypes

/-! ## Auxiliary definitions for the statements -/

section AuxDefs

variable {κ : Type} [DecidableEq κ] {denote : κ → Type}

/-- The local `TypeMap`s along an injector chain, child first.  A type is
"present in the chain" when some map in this list holds it. -/
def Injector.chainMaps : Injector κ denote → List (TypeMap κ denote)
  | .mk values parent =>
    values ::
      (match parent with
       | some p => p.chainMaps
       | none => [])

/-- The mutating operations of the `TypeMap` API, for stating invariants
over arbitrary operation sequences. -/
inductive MapOp (κ : Type) (denote : κ → Type) where
  | insert (t : κ) (v : denote t)
  | remove (t : κ)
  | clear

/-- Run one `TypeMap` operation. -/
def applyOp (m : TypeMap κ denote) : MapOp κ denote → TypeMap κ denote
  | .insert t v => m.insert t v
  | .remove t => (m.remove t).2
  | .clear => m.clear

/-- The `BTreeMap` key invariant: at most one entry per type code. -/
def TypeMap.wf (m : TypeMap κ denote) : Prop :=
  (m.entries.map Sigma.fst).Nodup

/-- Example parent injector holding `u32 = 5`. -/
def exParent : Injector Ty Ty.denote :=
  Injector.new.add_value Ty.u32 5

/-- Example child of `exParent` holding `u8 = 80` locally. -/
def exChild : Injector Ty Ty.denote :=
  (Injector.new.add_value Ty.u8 80).with_parent exParent

/-- Example child of `exParent` shadowing `u32` with its own value `7`. -/
def exChildShadow : Injector Ty Ty.denote :=
  (Injector.new.add_value Ty.u32 7).with_parent exParent

end AuxDefs

/-! ## Lemmas about the `TypeMap` model -/

section TypeMapLemmas

variable {κ : Type} [DecidableEq κ] {denote : κ → Type}

theorem downcastRef_self (t : κ) (v : denote t) :
    downcastRef t (⟨t, v⟩ : Sigma denote) = some v := by
  unfold downcastRef
  rw [dif_pos rfl]

theorem downcastRef_of_ne {t : κ} {e : Sigma denote} (h : e.1 ≠ t) :
    downcastRef t e = none := by
  unfold downcastRef
  rw [dif_neg h]

theorem findEntry_key {t : κ} {l : List (Sigma denote)} {e : Sigma denote}
    (h : findEntry t l = some e) : e.1 = t := by
  induction l with
  | nil => simp [findEntry] at h
  | cons a l ih =>
    by_cases ha : a.1 = t
    · simp [findEntry, ha] at h
      rw [← h]
      exact ha
    · simp [findEntry, ha] at h
      exact ih h

theorem findEntry_eraseEntry_self (t : κ) (l : List (Sigma denote)) :
    findEntry t (eraseEntry t l) = none := by
  induction l with
  | nil => rfl
  | cons a l ih =>
    by_cases ha : a.1 = t
    · simp [eraseEntry, ha, ih]
    · simp [eraseEntry, findEntry, ha, ih]

theorem findEntry_eraseEntry_of_ne {u t : κ} (h : u ≠ t)
    (l : List (Sigma denote)) :
    findEntry u (eraseEntry t l) = findEntry u l := by
  induction l with
  | nil => rfl
  | cons a l ih =>
    by_cases ha : a.1 = t
    · have hau : a.1 ≠ u := fun hc => h (hc ▸ ha)
      simp [eraseEntry, findEntry, ha, hau, ih, Ne.symm h]
    · simp [eraseEntry, findEntry, ha, ih]

theorem keyOf_not_mem_eraseEntry (t : κ) (l : List (Sigma denote)) :
    t ∉ (eraseEntry t l).map Sigma.fst := by
  induction l with
  | nil => simp [eraseEntry]
  | cons a l ih =>
    by_cases ha : a.1 = t
    · simpa [eraseEntry, ha] using ih
    · simp only [eraseEntry, if_neg ha, List.map_cons, List.mem_cons]
      rintro (h | h)
      · exact ha h.symm
      · exact ih h

theorem eraseEntry_sublist (t : κ) (l : List (Sigma denote)) :
    (eraseEntry t l).Sublist l := by
  induction l with
  | nil => simp [eraseEntry]
  | cons a l ih =>
    by_cases ha : a.1 = t
    · simp only [eraseEntry, if_pos ha]
      exact ih.cons a
    · simp only [eraseEntry, if_neg ha]
      exact ih.cons₂ a

/-- `get` after `insert` at the same code returns the new value
(`BTreeMap::insert` stores it, `downcast_ref` succeeds since the stored
code is the requested one). -/
theorem TypeMap.get_insert_self (m : TypeMap κ denote) (t : κ) (v : denote t) :
    (m.insert t v).get t = some v := by
  simp [TypeMap.get, TypeMap.insert, findEntry, downcastRef_self]

/-- `get` at a different code is unchanged by `insert`. -/
theorem TypeMap.get_insert_of_ne (m : TypeMap κ denote) {u t : κ} (h : u ≠ t)
    (v : denote t) : (m.insert t v).get u = m.get u := by
  simp [TypeMap.get, TypeMap.insert, findEntry, Ne.symm h,
    findEntry_eraseEntry_of_ne h]

/-- `get` and `get_mut` perform the same lookup. -/
theorem TypeMap.get_mut_eq_get (m : TypeMap κ denote) (t : κ) :
    m.get_mut t = m.get t := rfl

/-- The value `remove` returns is exactly what `get` would have returned. -/
theorem TypeMap.remove_fst (m : TypeMap κ denote) (t : κ) :
    (m.remove t).1 = m.get t := rfl

/-- After `remove`, the code is gone from the map. -/
theorem TypeMap.get_remove_self (m : TypeMap κ denote) (t : κ) :
    (m.remove t).2.get t = none := by
  simp [TypeMap.get, TypeMap.remove, findEntry_eraseEntry_self]

/-- `remove` leaves every other code's entry alone. -/
theorem TypeMap.get_remove_of_ne (m : TypeMap κ denote) {u t : κ} (h : u ≠ t) :
    (m.remove t).2.get u = m.get u := by
  simp [TypeMap.get, TypeMap.remove, findEntry_eraseEntry_of_ne h]

/-- `contains` agrees with `get`: the entry found under code `t` always has
code `t`, so its downcast never fails. -/
theorem TypeMap.contains_iff_get (m : TypeMap κ denote) (t : κ) :
    m.contains t = true ↔ ∃ v, m.get t = some v := by
  unfold TypeMap.contains TypeMap.get
  cases hf : findEntry t m.entries with
  | none => simp
  | some e =>
    have hk : e.1 = t := findEntry_key hf
    rcases e with ⟨u, w⟩
    cases hk
    simp [downcastRef_self]

/-- `get` succeeds exactly when `contains` holds. -/
theorem TypeMap.get_isSome_eq_contains (m : TypeMap κ denote) (t : κ) :
    (m.get t).isSome = m.contains t := by
  unfold TypeMap.contains TypeMap.get
  cases hf : findEntry t m.entries with
  | none => rfl
  | some e =>
    have hk : e.1 = t := findEntry_key hf
    rcases e with ⟨u, w⟩
    cases hk
    simp [downcastRef_self]

/-- A successful `get` returns the very entry stored under code `t`, whose
stored code is `t` itself — a wrongly-typed result is impossible. -/
theorem TypeMap.get_some_findEntry {m : TypeMap κ denote} {t : κ}
    {v : denote t} (h : m.get t = some v) :
    findEntry t m.entries = some ⟨t, v⟩ := by
  unfold TypeMap.get at h
  cases hf : findEntry t m.entries with
  | none => rw [hf] at h; simp at h
  | some e =>
    rw [hf] at h
    have hd : downcastRef t e = some v := h
    rcases e with ⟨u, w⟩
    unfold downcastRef at hd
    by_cases hk : u = t
    · subst hk
      rw [dif_pos rfl] at hd
      cases hd
      rfl
    · rw [dif_neg hk] at hd
      exact Option.noConfusion hd

/-- `contains` at a different code is unchanged by `insert`. -/
theorem TypeMap.contains_insert_of_ne (m : TypeMap κ denote) {u t : κ}
    (h : u ≠ t) (v : denote t) : (m.insert t v).contains u = m.contains u := by
  simp [TypeMap.contains, TypeMap.insert, findEntry, Ne.symm h,
    findEntry_eraseEntry_of_ne h]

/-- `contains` at a different code is unchanged by `remove`. -/
theorem TypeMap.contains_remove_of_ne (m : TypeMap κ denote) {u t : κ}
    (h : u ≠ t) : (m.remove t).2.contains u = m.contains u := by
  simp [TypeMap.contains, TypeMap.remove, findEntry_eraseEntry_of_ne h]

/-- After `remove`, `contains` reports absence. -/
theorem TypeMap.contains_remove_self (m : TypeMap κ denote) (t : κ) :
    (m.remove t).2.contains t = false := by
  simp [TypeMap.contains, TypeMap.remove, findEntry_eraseEntry_self]

omit [DecidableEq κ] in
/-- The empty map satisfies the key invariant. -/
theorem TypeMap.wf_new : (TypeMap.new : TypeMap κ denote).wf := by
  simp [TypeMap.wf, TypeMap.new]

/-- `insert` preserves the key invariant: the new entry's code is absent
from the erased tail, whose keys stay pairwise distinct. -/
theorem TypeMap.wf_insert {m : TypeMap κ denote} (hm : m.wf) (t : κ)
    (v : denote t) : (m.insert t v).wf := by
  unfold TypeMap.wf TypeMap.insert at *
  simp only [List.map_cons, List.nodup_cons]
  exact ⟨keyOf_not_mem_eraseEntry t m.entries,
    hm.sublist ((eraseEntry_sublist t m.entries).map Sigma.fst)⟩

/-- `remove` preserves the key invariant. -/
theorem TypeMap.wf_remove {m : TypeMap κ denote} (hm : m.wf) (t : κ) :
    (m.remove t).2.wf := by
  unfold TypeMap.wf TypeMap.remove at *
  exact hm.sublist ((eraseEntry_sublist t m.entries).map Sigma.fst)

omit [DecidableEq κ] in
/-- `clear` preserves the key invariant. -/
theorem TypeMap.wf_clear (m : TypeMap κ denote) : m.clear.wf := by
  simp [TypeMap.wf, TypeMap.clear]

/-- Every operation preserves the key invariant. -/
theorem wf_applyOp {m : TypeMap κ denote} (hm : m.wf) (op : MapOp κ denote) :
    (applyOp m op).wf := by
  cases op with
  | insert t v => exact TypeMap.wf_insert hm t v
  | remove t => exact TypeMap.wf_remove hm t
  | clear => exact TypeMap.wf_clear m

/-- Any operation sequence from a well-formed map stays well-formed. -/
theorem wf_foldl {m : TypeMap κ denote} (hm : m.wf) :
    ∀ ops : List (MapOp κ denote), (ops.foldl applyOp m).wf := by
  intro ops
  induction ops generalizing m with
  | nil => exact hm
  | cons op ops ih => exact ih (wf_applyOp hm op)

end TypeMapLemmas

/-! ## Lemmas about the `Injector` model -/

section InjectorLemmas

variable {κ : Type} [DecidableEq κ] {denote : κ → Type} {R : Type}

theorem Injector.get_of_local {i : Injector κ denote} {t : κ} {v : denote t}
    (h : i.values.get t = some v) : i.get t = some v := by
  cases i with
  | mk values parent =>
    simp only [Injector.values] at h
    cases parent <;> simp [Injector.get, h]

theorem Injector.get_of_miss_parent {i : Injector κ denote} {t : κ}
    {p : Injector κ denote} (hv : i.values.get t = none)
    (hp : i.parent = some p) : i.get t = p.get t := by
  cases i with
  | mk values parent =>
    simp only [Injector.values] at hv
    simp only [Injector.parent] at hp
    subst hp
    simp [Injector.get, hv]

theorem Injector.get_of_miss_root {i : Injector κ denote} {t : κ}
    (hv : i.values.get t = none) (hp : i.parent = none) : i.get t = none := by
  cases i with
  | mk values parent =>
    simp only [Injector.values] at hv
    simp only [Injector.parent] at hp
    subst hp
    simp [Injector.get, hv]

theorem Injector.get_mut_agrees_with_get :
    ∀ (i : Injector κ denote) (t : κ), i.get_mut t = i.get t
  | .mk values none, t => by
    simp [Injector.get, Injector.get_mut, TypeMap.get_mut_eq_get]
  | .mk values (some p), t => by
    simp [Injector.get, Injector.get_mut, TypeMap.get_mut_eq_get,
      Injector.get_mut_agrees_with_get p t]

/-- `Injector::get` returns `None` exactly when no map along the chain
holds the code. -/
theorem Injector.get_eq_none_iff :
    ∀ (i : Injector κ denote) (t : κ),
      i.get t = none ↔ ∀ m ∈ i.chainMaps, m.get t = none
  | .mk values none, t => by
    cases h : values.get t <;>
      simp [Injector.get, Injector.chainMaps, h]
  | .mk values (some p), t => by
    cases h : values.get t <;>
      simp [Injector.get, Injector.chainMaps, h,
        Injector.get_eq_none_iff p t]

theorem Injector.callN_of_missing {i : Injector κ denote} :
    ∀ {ts : List κ}, (∃ t ∈ ts, i.get t = none) →
      ∀ f : hfun denote R ts, i.callN ts f = none
  | [], h => by simp at h
  | t :: ts, h => by
    intro f
    rcases h with ⟨u, hu, hnone⟩
    rcases List.mem_cons.mp hu with rfl | hmem
    · simp [Injector.callN, hnone]
    · cases hg : i.get t with
      | none => simp [Injector.callN, hg]
      | some v =>
        simp [Injector.callN, hg,
          Injector.callN_of_missing ⟨u, hmem, hnone⟩]

/-- When some parameter code is held by no map of the chain, the lookup
chain yields `none` for it and the generated `call` body aborts. -/
theorem Injector.callN_of_absent {i : Injector κ denote} {ts : List κ}
    (h : ∃ t ∈ ts, ∀ m ∈ i.chainMaps, m.get t = none)
    (f : hfun denote R ts) : i.callN ts f = none := by
  rcases h with ⟨t, ht, hm⟩
  exact Injector.callN_of_missing
    ⟨t, ht, (Injector.get_eq_none_iff i t).mpr hm⟩ f

/-- When every parameter code resolves, the generated `call` body applies
`f` to the resolved values and returns its result. -/
theorem Injector.callN_cons {i : Injector κ denote} {t : κ} {ts : List κ}
    {v : denote t} (h : i.get t = some v) (f : hfun denote R (t :: ts)) :
    i.callN (t :: ts) f = i.callN ts (f v) := by
  simp [Injector.callN, h]

end InjectorLemmas

/-! ## The claims -/

section Claims

variable {κ : Type} [DecidableEq κ] {denote : κ → Type} {R : Type}

/-- Claim C1: for every function of arity 1 through 10 passed to
`Injector::call`, if some declared parameter type is present neither in the
injector's local `TypeMap` nor in any ancestor of the chain, the call
aborts — modelled as the result `none`, the panic of the `unwrap()` in the
generated dispatch body — and never returns a default or a recoverable
error value (`some`). -/
theorem C1_missing_dependency_aborts (i : Injector κ denote) :
    (∀ t1 (f : denote t1 → R),
      (∃ t ∈ [t1], ∀ m ∈ i.chainMaps, m.get t = none) →
      i.call1 t1 f = none) ∧
    (∀ t1 t2 (f : denote t1 → denote t2 → R),
      (∃ t ∈ [t1, t2], ∀ m ∈ i.chainMaps, m.get t = none) →
      i.call2 t1 t2 f = none) ∧
    (∀ t1 t2 t3 (f : denote t1 → denote t2 → denote t3 → R),
      (∃ t ∈ [t1, t2, t3], ∀ m ∈ i.chainMaps, m.get t = none) →
      i.call3 t1 t2 t3 f = none) ∧
    (∀ t1 t2 t3 t4 (f : denote t1 → denote t2 → denote t3 → denote t4 → R),
      (∃ t ∈ [t1, t2, t3, t4], ∀ m ∈ i.chainMaps, m.get t = none) →
      i.call4 t1 t2 t3 t4 f = none) ∧
    (∀ t1 t2 t3 t4 t5
      (f : denote t1 → denote t2 → denote t3 → denote t4 → denote t5 → R),
      (∃ t ∈ [t1, t2, t3, t4, t5], ∀ m ∈ i.chainMaps, m.get t = none) →
      i.call5 t1 t2 t3 t4 t5 f = none) ∧
    (∀ t1 t2 t3 t4 t5 t6
      (f : denote t1 → denote t2 → denote t3 → denote t4 → denote t5 →
        denote t6 → R),
      (∃ t ∈ [t1, t2, t3, t4, t5, t6], ∀ m ∈ i.chainMaps, m.get t = none) →
      i.call6 t1 t2 t3 t4 t5 t6 f = none) ∧
    (∀ t1 t2 t3 t4 t5 t6 t7
      (f : denote t1 → denote t2 → denote t3 → denote t4 → denote t5 →
        denote t6 → denote t7 → R),
      (∃ t ∈ [t1, t2, t3, t4, t5, t6, t7],
        ∀ m ∈ i.chainMaps, m.get t = none) →
      i.call7 t1 t2 t3 t4 t5 t6 t7 f = none) ∧
    (∀ t1 t2 t3 t4 t5 t6 t7 t8
      (f : denote t1 → denote t2 → denote t3 → denote t4 → denote t5 →
        denote t6 → denote t7 → denote t8 → R),
      (∃ t ∈ [t1, t2, t3, t4, t5, t6, t7, t8],
        ∀ m ∈ i.chainMaps, m.get t = none) →
      i.call8 t1 t2 t3 t4 t5 t6 t7 t8 f = none) ∧
    (∀ t1 t2 t3 t4 t5 t6 t7 t8 t9
      (f : denote t1 → denote t2 → denote t3 → denote t4 → denote t5 →
        denote t6 → denote t7 → denote t8 → denote t9 → R),
      (∃ t ∈ [t1, t2, t3, t4, t5, t6, t7, t8, t9],
        ∀ m ∈ i.chainMaps, m.get t = none) →
      i.call9 t1 t2 t3 t4 t5 t6 t7 t8 t9 f = none) ∧
    (∀ t1 t2 t3 t4 t5 t6 t7 t8 t9 t10
      (f : denote t1 → denote t2 → denote t3 → denote t4 → denote t5 →
        denote t6 → denote t7 → denote t8 → denote t9 → denote t10 → R),
      (∃ t ∈ [t1, t2, t3, t4, t5, t6, t7, t8, t9, t10],
        ∀ m ∈ i.chainMaps, m.get t = none) →
      i.call10 t1 t2 t3 t4 t5 t6 t7 t8 t9 t10 f = none) :=
  ⟨fun _ f h => Injector.callN_of_absent h f,
   fun _ _ f h => Injector.callN_of_absent h f,
   fun _ _ _ f h => Injector.callN_of_absent h f,
   fun _ _ _ _ f h => Injector.callN_of_absent h f,
   fun _ _ _ _ _ f h => Injector.callN_of_absent h f,
   fun _ _ _ _ _ _ f h => Injector.callN_of_absent h f,
   fun _ _ _ _ _ _ _ f h => Injector.callN_of_absent h f,
   fun _ _ _ _ _ _ _ _ f h => Injector.callN_of_absent h f,
   fun _ _ _ _ _ _ _ _ _ f h => Injector.callN_of_absent h f,
   fun _ _ _ _ _ _ _ _ _ _ f h => Injector.callN_of_absent h f⟩

/-- Witness for C1: on the empty injector, calling the identity through
`call1` with parameter type `u32` — registered nowhere — aborts. -/
theorem C1_witness :
    (Injector.new : Injector Ty Ty.denote).call1 Ty.u32 (fun a => a) = none :=
  (C1_missing_dependency_aborts Injector.new).1 Ty.u32 (fun a => a)
    ⟨Ty.u32, by simp, by decide⟩

/-- Claim C2: `call` resolves each declared parameter type from the chain,
invokes `f` on references to the resolved values, and returns exactly what
`f` returns; in particular, with `u32 = 5` and `u8 = 80` registered the
two-parameter sum returns 85, and after additionally registering
`u16 = 100` the three-parameter sum returns 185. -/
theorem C2_call_returns_result :
    (∀ (i : Injector κ denote) (t1 t2 : κ) (v1 : denote t1) (v2 : denote t2)
      (f : denote t1 → denote t2 → R),
      i.get t1 = some v1 → i.get t2 = some v2 →
      i.call2 t1 t2 f = some (f v1 v2)) ∧
    (∀ (i : Injector κ denote) (t1 t2 t3 : κ) (v1 : denote t1)
      (v2 : denote t2) (v3 : denote t3)
      (f : denote t1 → denote t2 → denote t3 → R),
      i.get t1 = some v1 → i.get t2 = some v2 → i.get t3 = some v3 →
      i.call3 t1 t2 t3 f = some (f v1 v2 v3)) ∧
    exInj2.call2 Ty.u32 Ty.u8 plus = some 85 ∧
    exInj3.call3 Ty.u32 Ty.u8 Ty.u16 plus3 = some 185 := by
  refine ⟨?_, ?_, rfl, rfl⟩
  · intro i t1 t2 v1 v2 f h1 h2
    simp [Injector.call2, Injector.callN, h1, h2]
  · intro i t1 t2 t3 v1 v2 v3 f h1 h2 h3
    simp [Injector.call3, Injector.callN, h1, h2, h3]

/-- Witness for C2: the general resolution statement applied to the
example injectors and callables of the spec. -/
theorem C2_witness :
    exInj2.call2 Ty.u32 Ty.u8 plus = some (plus 5 80) ∧
    exInj3.call3 Ty.u32 Ty.u8 Ty.u16 plus3 = some (plus3 5 80 100) :=
  ⟨C2_call_returns_result.1 exInj2 Ty.u32 Ty.u8 5 80 plus rfl rfl,
   C2_call_returns_result.2.1 exInj3 Ty.u32 Ty.u8 Ty.u16 5 80 100 plus3
     rfl rfl rfl⟩

/-- Claim C3: immediately after `Injector::add_value(v)`, `get::<T>()`
returns the value just stored. -/
theorem C3_add_value_then_get (i : Injector κ denote) (t : κ)
    (v : denote t) : (i.add_value t v).get t = some v :=
  Injector.get_of_local (TypeMap.get_insert_self i.values t v)

/-- Claim C4: inserting a second value of the same type — directly into a
`TypeMap` or via `add_value` on the same injector — replaces the first, and
subsequent `get`/`get_mut` observe only the second value; the replacement
is an ordinary result, not an error. -/
theorem C4_insert_overwrites (m : TypeMap κ denote) (i : Injector κ denote)
    (t : κ) (v1 v2 : denote t) :
    ((m.insert t v1).insert t v2).get t = some v2 ∧
    ((m.insert t v1).insert t v2).get_mut t = some v2 ∧
    ((i.add_value t v1).add_value t v2).get t = some v2 :=
  ⟨TypeMap.get_insert_self _ t v2,
   TypeMap.get_insert_self _ t v2,
   Injector.get_of_local (TypeMap.get_insert_self _ t v2)⟩

/-- Claim C5: `Injector::get` and `get_mut` search child-to-root: a
locally held value is returned outright, shadowing any ancestor's value of
the same type; on a local miss the parent is consulted when present; and
the result is `None` exactly when no injector in the chain holds the
type. -/
theorem C5_chain_lookup (i : Injector κ denote) (t : κ) :
    (∀ v : denote t, i.values.get t = some v →
      i.get t = some v ∧ i.get_mut t = some v) ∧
    (∀ p, i.values.get t = none → i.parent = some p →
      i.get t = p.get t ∧ i.get_mut t = p.get_mut t) ∧
    (i.values.get t = none → i.parent = none →
      i.get t = none ∧ i.get_mut t = none) ∧
    (i.get t = none ↔ ∀ m ∈ i.chainMaps, m.get t = none) ∧
    (i.get_mut t = none ↔ ∀ m ∈ i.chainMaps, m.get_mut t = none) := by
  refine ⟨?_, ?_, ?_, Injector.get_eq_none_iff i t, ?_⟩
  · intro v h
    refine ⟨Injector.get_of_local h, ?_⟩
    rw [Injector.get_mut_agrees_with_get]
    exact Injector.get_of_local h
  · intro p hv hp
    refine ⟨Injector.get_of_miss_parent hv hp, ?_⟩
    rw [Injector.get_mut_agrees_with_get, Injector.get_mut_agrees_with_get]
    exact Injector.get_of_miss_parent hv hp
  · intro hv hp
    refine ⟨Injector.get_of_miss_root hv hp, ?_⟩
    rw [Injector.get_mut_agrees_with_get]
    exact Injector.get_of_miss_root hv hp
  · rw [Injector.get_mut_agrees_with_get]
    simp only [TypeMap.get_mut_eq_get]
    exact Injector.get_eq_none_iff i t

/-- Witness for C5: the child shadowing `u32` returns its own value `7`,
and the child lacking `u32` locally delegates to its parent. -/
theorem C5_witness :
    exChildShadow.get Ty.u32 = some 7 ∧
    exChild.get Ty.u32 = exParent.get Ty.u32 :=
  ⟨((C5_chain_lookup exChildShadow Ty.u32).1 7 rfl).1,
   ((C5_chain_lookup exChild Ty.u32).2.1 exParent rfl rfl).1⟩

/-- Claim C6: `TypeMap::remove::<T>()` returns exactly the value `get`
would have returned — `Some(v)` precisely when a value of type `T` was
stored, `None` otherwise — and afterwards `get` and `contains` report
absence. -/
theorem C6_remove_semantics (m : TypeMap κ denote) (t : κ) :
    (m.remove t).1 = m.get t ∧
    ((m.remove t).1).isSome = m.contains t ∧
    (m.remove t).2.get t = none ∧
    (m.remove t).2.contains t = false :=
  ⟨TypeMap.remove_fst m t,
   by rw [TypeMap.remove_fst]; exact TypeMap.get_isSome_eq_contains m t,
   TypeMap.get_remove_self m t,
   TypeMap.contains_remove_self m t⟩

/-- Claim C7: every sequence of `insert`/`remove`/`clear` operations from
the empty map keeps at most one stored entry per distinct type code, and a
successful retrieval for type `T` returns the entry stored under code `T`
itself — a wrongly-typed result is structurally impossible. -/
theorem C7_invariants (ops : List (MapOp κ denote)) (t : κ) :
    (ops.foldl applyOp TypeMap.new).wf ∧
    (∀ (m : TypeMap κ denote) (v : denote t), m.get t = some v →
      findEntry t m.entries = some ⟨t, v⟩) :=
  ⟨wf_foldl TypeMap.wf_new ops, fun _ _ h => TypeMap.get_some_findEntry h⟩

/-- Witness for C7: a concrete operation sequence stays well-formed, and a
concrete successful `get` is backed by an entry keyed by the looked-up
code. -/
theorem C7_witness :
    ([MapOp.insert Ty.u32 5, MapOp.insert Ty.u8 80,
        MapOp.remove Ty.u32].foldl applyOp
      (TypeMap.new : TypeMap Ty Ty.denote)).wf ∧
    findEntry Ty.u32
      (TypeMap.new.insert Ty.u32 5 : TypeMap Ty Ty.denote).entries =
      some ⟨Ty.u32, 5⟩ :=
  ⟨(C7_invariants [MapOp.insert Ty.u32 5, MapOp.insert Ty.u8 80,
      MapOp.remove Ty.u32] Ty.u32).1,
   (C7_invariants ([] : List (MapOp Ty Ty.denote)) Ty.u32).2
     (TypeMap.new.insert Ty.u32 5) 5 rfl⟩

/-- Claim C8: `add_value` on a child injector touches only the child's
local `TypeMap`: the parent link still points at the very same parent, so
every lookup through the parent returns exactly its pre-insertion
result. -/
theorem C8_add_value_frame (c p : Injector κ denote) (t : κ) (v : denote t)
    (u : κ) :
    ((c.with_parent p).add_value t v).parent = some p ∧
    ((c.with_parent p).add_value t v).values =
      (c.with_parent p).values.insert t v ∧
    (((c.with_parent p).add_value t v).parent.map fun q => q.get u) =
      some (p.get u) :=
  ⟨rfl, rfl, rfl⟩

/-- Claim C9: a zero-parameter callable passed to `call` succeeds on every
injector, the entirely empty one included: the result is exactly `f`'s own
result, and the missing-dependency abort is unreachable at arity zero. -/
theorem C9_arity0_total (i : Injector κ denote) (f : Unit → R) :
    i.call0 f = some (f ()) ∧
    (Injector.new : Injector κ denote).call0 f = some (f ()) ∧
    i.call0 f ≠ none :=
  ⟨rfl, rfl, fun h => Option.noConfusion h⟩

/-- Claim C10: `TypeMap::insert::<T>` and `TypeMap::remove::<T>` affect
only the entry for `T`: for every other type code `U`, `get`, `get_mut`
and `contains` answer the same before and after. -/
theorem C10_insert_remove_frame (m : TypeMap κ denote) {u t : κ}
    (h : u ≠ t) (v : denote t) :
    (m.insert t v).get u = m.get u ∧
    (m.insert t v).get_mut u = m.get_mut u ∧
    (m.insert t v).contains u = m.contains u ∧
    (m.remove t).2.get u = m.get u ∧
    (m.remove t).2.get_mut u = m.get_mut u ∧
    (m.remove t).2.contains u = m.contains u :=
  ⟨TypeMap.get_insert_of_ne m h v,
   TypeMap.get_insert_of_ne m h v,
   TypeMap.contains_insert_of_ne m h v,
   TypeMap.get_remove_of_ne m h,
   TypeMap.get_remove_of_ne m h,
   TypeMap.contains_remove_of_ne m h⟩

/-- Witness for C10: inserting `u16` leaves the `u32` entry readable and
unchanged. -/
theorem C10_witness :
    ((TypeMap.new.insert Ty.u32 5 : TypeMap Ty Ty.denote).insert
      Ty.u16 9).get Ty.u32 = some 5 := by
  rw [(C10_insert_remove_frame (TypeMap.new.insert Ty.u32 5)
    (by decide) 9).1]
  rfl

end Claims
